import Mathlib

set_option autoImplicit false

/-!
A shallow embedding of the governance policy engine (`app/core/governance.py`)
and the workflow execution engine (`app/core/workflow_engine.py`) of the
eclipse-sales-platform repository, together with theorems settling the
specification claims about them.
-/

/-- Model of the dynamically typed Python values that flow through policy
contexts and rule conditions: `None`, booleans, strings, integers, lists and
string-keyed dicts. -/
inductive PyVal where
  | none : PyVal
  | bool : Bool → PyVal
  | str : String → PyVal
  | int : Int → PyVal
  | list : List PyVal → PyVal
  | dict : List (String × PyVal) → PyVal

mutual

/-- Python `==` on the modelled values.  Equality is structural; the claims
never compare values of different scalar types, so Python's cross-type numeric
equalities (`True == 1`) are out of scope and modelled as `false`. -/
def pyEq : PyVal → PyVal → Bool
  | PyVal.none, PyVal.none => true
  | PyVal.bool a, PyVal.bool b => a == b
  | PyVal.str a, PyVal.str b => a == b
  | PyVal.int a, PyVal.int b => a == b
  | PyVal.list a, PyVal.list b => pyEqList a b
  | PyVal.dict a, PyVal.dict b => pyEqDict a b
  | _, _ => false

/-- Elementwise Python `==` on lists. -/
def pyEqList : List PyVal → List PyVal → Bool
  | [], [] => true
  | x :: xs, y :: ys => pyEq x y && pyEqList xs ys
  | _, _ => false

/-- Entrywise Python `==` on dicts (the modelled dicts keep insertion order
with unique keys, so entrywise comparison realises Python dict equality). -/
def pyEqDict : List (String × PyVal) → List (String × PyVal) → Bool
  | [], [] => true
  | (k₁, v₁) :: xs, (k₂, v₂) :: ys => k₁ == k₂ && pyEq v₁ v₂ && pyEqDict xs ys
  | _, _ => false

end

/-- `d.get(k)` on a Python dict modelled as an association list: the first
binding of `k` wins (Python keys are unique, so lookup order is immaterial). -/
def dictGet (d : List (String × PyVal)) (k : String) : Option PyVal :=
  match d.find? (fun e => e.1 == k) with
  | Option.none => Option.none
  | Option.some e => Option.some e.2

/-- `d.get(k, default)`. -/
def dictGetD (d : List (String × PyVal)) (k : String) (default : PyVal) : PyVal :=
  (dictGet d k).getD default

example : dictGetD [("a", PyVal.int 1)] "b" PyVal.none = PyVal.none := rfl
example : pyEq (PyVal.list [PyVal.str "a"]) (PyVal.list [PyVal.str "a"]) = true := rfl

/-- Python `s.startswith(p)`, computed on the character lists so that concrete
instances reduce. -/
def strStartsWith (s p : String) : Bool :=
  p.data.isPrefixOf s.data

/-- Python `s[n:]`. -/
def strDrop (s : String) (n : Nat) : String :=
  String.mk (s.data.drop n)

/-- Python `s[:-n]` (for `n` at most the length). -/
def strDropRight (s : String) (n : Nat) : String :=
  String.mk (s.data.take (s.data.length - n))

mutual

/-- Python `str()` of a modelled value (`str(context_value)` in rule
matching). -/
def pyStr : PyVal → String
  | PyVal.none => "None"
  | PyVal.bool b => if b then "True" else "False"
  | PyVal.str s => s
  | PyVal.int n => toString n
  | PyVal.list l => "[" ++ pyReprList l ++ "]"
  | PyVal.dict d => "\x7b" ++ pyReprDict d ++ "\x7d"

/-- Python `repr()` of a modelled value, as used by `str()` on containers.
String escaping subtleties are ignored: the claims never stringify
containers. -/
def pyRepr : PyVal → String
  | PyVal.str s => "\x27" ++ s ++ "\x27"
  | PyVal.none => "None"
  | PyVal.bool b => if b then "True" else "False"
  | PyVal.int n => toString n
  | PyVal.list l => "[" ++ pyReprList l ++ "]"
  | PyVal.dict d => "\x7b" ++ pyReprDict d ++ "\x7d"

/-- Comma-separated `repr()`s of list elements. -/
def pyReprList : List PyVal → String
  | [] => ""
  | [x] => pyRepr x
  | x :: xs => pyRepr x ++ ", " ++ pyReprList xs

/-- Comma-separated `repr()`s of dict entries. -/
def pyReprDict : List (String × PyVal) → String
  | [] => ""
  | [(k, v)] => "\x27" ++ k ++ "\x27: " ++ pyRepr v
  | (k, v) :: xs => "\x27" ++ k ++ "\x27: " ++ pyRepr v ++ ", " ++ pyReprDict xs

end

/-- Python `x in c` for the container shapes the policy code can meet: list
membership uses `==` on elements, string containment is substring search, dict
containment is key membership.  A non-string member of a string, or a scalar
container, raises `TypeError` in Python; no claim exercises those, and they
are modelled as `false`. -/
def pyIn (x : PyVal) (c : PyVal) : Bool :=
  match c with
  | PyVal.list l => l.any (fun e => pyEq e x)
  | PyVal.str s =>
      match x with
      | PyVal.str t => decide (List.IsInfix t.data s.data)
      | _ => false
  | PyVal.dict d =>
      match x with
      | PyVal.str k => d.any (fun e => e.1 == k)
      | _ => false
  | _ => false

/-- The `Permission` enumeration of `governance.py`. -/
inductive Permission where
  | read_leads | write_leads | delete_leads
  | read_accounts | write_accounts | delete_accounts
  | read_opportunities | write_opportunities | delete_opportunities
  | execute_ai_tools | approve_ai_decisions | configure_ai_workflows | access_ai_memory
  | send_emails | schedule_meetings | make_calls
  | manage_users | manage_roles | view_analytics | export_data | configure_system
  | view_audit_logs | manage_compliance | data_retention
deriving DecidableEq

/-- The `PolicyType` enumeration. -/
inductive PolicyType where
  | data_access | ai_behavior | communication | retention | privacy | security | compliance
deriving DecidableEq

/-- The `PolicyAction` enumeration. -/
inductive PolicyAction where
  | allow | deny | require_approval | log_only | redact
deriving DecidableEq

/-- The `AuditEventType` enumeration. -/
inductive AuditEventType where
  | user_login | user_logout | data_access | data_modification | ai_decision
  | tool_execution | policy_violation | permission_denied | configuration_change
  | data_export
deriving DecidableEq

/-- The `PolicyRule` dataclass (the `metadata` and `created_at` fields play no
role in any behaviour and are omitted). -/
structure PolicyRule where
  rule_id : String
  name : String
  description : String
  policy_type : PolicyType
  conditions : List (String × PyVal)
  action : PolicyAction
  priority : Int
  enabled : Bool

/-- One condition check of `PolicyRule.matches`, for condition value
`condition_value` against the context value `context_value` (which is `None`
when the key is absent from the context).  `rm` is the abstract semantics of
`re.match(pattern, string)`: the code delegates regex matching to Python's
`re` module, and every theorem below holds for an arbitrary `rm`. -/
def conditionSatisfied (rm : PyVal → String → Bool)
    (condition_value context_value : PyVal) : Bool :=
  match condition_value with
  | PyVal.dict d =>
      let operator := dictGetD d "operator" (PyVal.str "equals")
      let values := dictGetD d "values" (dictGetD d "value" PyVal.none)
      if pyEq operator (PyVal.str "equals") then pyEq context_value values
      else if pyEq operator (PyVal.str "in") then pyIn context_value values
      else if pyEq operator (PyVal.str "not_in") then ! pyIn context_value values
      else if pyEq operator (PyVal.str "contains") then pyIn values (PyVal.str (pyStr context_value))
      else if pyEq operator (PyVal.str "regex") then rm values (pyStr context_value)
      else true
  | _ => pyEq context_value condition_value

/-- The condition loop of `PolicyRule.matches`: first violated condition
returns `False`, an exhausted loop returns `True`. -/
def matchesConditions (rm : PyVal → String → Bool) (context : List (String × PyVal)) :
    List (String × PyVal) → Bool
  | [] => true
  | (condition_key, condition_value) :: rest =>
      if conditionSatisfied rm condition_value (dictGetD context condition_key PyVal.none)
      then matchesConditions rm context rest
      else false

/-- `PolicyRule.matches(self, context)`. -/
def PolicyRule.matches (rule : PolicyRule) (rm : PyVal → String → Bool)
    (context : List (String × PyVal)) : Bool :=
  if rule.enabled = false then false
  else matchesConditions rm context rule.conditions

/-- One entry of the `violations` list built by `evaluate_policies`. -/
structure Violation where
  rule_id : String
  rule_name : String
  action : PolicyAction
  description : String
deriving DecidableEq

/-- The matched-rule summary appended to `violations`. -/
def violationOf (rule : PolicyRule) : Violation :=
  ⟨rule.rule_id, rule.name, rule.action, rule.description⟩

/-- Result of `PolicyEngine.evaluate_policies` (the echoed `context` entry of
the returned dict carries no information and is omitted). -/
structure EvalResult where
  action : PolicyAction
  violations : List Violation
deriving DecidableEq

/-- The `final_action` update of `evaluate_policies` for a matched non-DENY
rule: the `elif` chain upgrades `final_action` only from the stated values. -/
def upgradeAction (final_action : PolicyAction) (action : PolicyAction) : PolicyAction :=
  if action = PolicyAction.require_approval then
    (if final_action = PolicyAction.allow then PolicyAction.require_approval else final_action)
  else if action = PolicyAction.redact then
    (if final_action = PolicyAction.allow ∨ final_action = PolicyAction.log_only
     then PolicyAction.redact else final_action)
  else if action = PolicyAction.log_only then
    (if final_action = PolicyAction.allow then PolicyAction.log_only else final_action)
  else final_action

/-- The rule loop of `evaluate_policies`: accumulate violations for matched
rules, `break` with DENY on the first matched DENY rule, otherwise fold the
`final_action` update. -/
def evaluate_rules (rm : PyVal → String → Bool) (context : List (String × PyVal)) :
    List PolicyRule → List Violation → PolicyAction → EvalResult
  | [], violations, final_action => ⟨final_action, violations⟩
  | rule :: rest, violations, final_action =>
      if rule.matches rm context then
        let violations := violations ++ [violationOf rule]
        if rule.action = PolicyAction.deny then ⟨PolicyAction.deny, violations⟩
        else evaluate_rules rm context rest violations (upgradeAction final_action rule.action)
      else evaluate_rules rm context rest violations final_action

/-- Lookup in the engine's `self.policies` dict. -/
def policiesGet (policies : List (PolicyType × List PolicyRule)) (pt : PolicyType) :
    Option (List PolicyRule) :=
  match policies.find? (fun e => e.1 == pt) with
  | Option.none => Option.none
  | Option.some e => Option.some e.2

/-- `PolicyEngine.evaluate_policies(self, policy_type, context)`. -/
def evaluate_policies (rm : PyVal → String → Bool)
    (policies : List (PolicyType × List PolicyRule)) (policy_type : PolicyType)
    (context : List (String × PyVal)) : EvalResult :=
  match policiesGet policies policy_type with
  | Option.none => ⟨PolicyAction.allow, []⟩
  | Option.some rules => evaluate_rules rm context rules [] PolicyAction.allow


/-- Append `rules` to the list registered for `pt` in the `self.policies`
dict, creating the entry when absent — the update pattern shared by
`_load_policies` and `_initialize_default_policies`. -/
def policiesAdd (policies : List (PolicyType × List PolicyRule)) (pt : PolicyType)
    (rules : List PolicyRule) : List (PolicyType × List PolicyRule) :=
  if policies.any (fun e => e.1 == pt) then
    policies.map (fun e => if e.1 == pt then (e.1, e.2 ++ rules) else e)
  else policies ++ [(pt, rules)]

/-- One active `PolicyStorage` row after deserialization: the stored
`policy_type` the rules are grouped under, and the parsed rules. -/
structure StoredPolicy where
  policy_type : PolicyType
  rules : List PolicyRule

instance decRelPriorityLe : DecidableRel (fun a b : PolicyRule => a.priority ≤ b.priority) :=
  fun a b => Int.decLe a.priority b.priority

/-- The per-type `sort(key=lambda x: x.priority)` of `_load_policies`.
Python's sort is stable, and a stable sort by a key is unique, so the stable
insertion sort realises it. -/
def sortByPriority (rules : List PolicyRule) : List PolicyRule :=
  List.insertionSort (fun a b => a.priority ≤ b.priority) rules

/-- `PolicyEngine._load_policies`: group the stored rules by the stored
policy type, then sort each type's list ascending by priority. -/
def _load_policies (stored : List StoredPolicy) : List (PolicyType × List PolicyRule) :=
  (stored.foldl (fun acc sp => policiesAdd acc sp.policy_type sp.rules) []).map
    (fun e => (e.1, sortByPriority e.2))

/-- The four `default_policies` of `_initialize_default_policies`. -/
def default_policies : List PolicyRule :=
  [⟨"data_access_own_leads", "Own Leads Access",
    "Users can only access leads assigned to them", PolicyType.data_access,
    [("resource_type", PyVal.str "lead"),
     ("action", PyVal.dict [("operator", PyVal.str "in"),
                            ("values", PyVal.list [PyVal.str "read", PyVal.str "write"])])],
    PolicyAction.require_approval, 100, true⟩,
   ⟨"ai_email_approval", "AI Email Approval",
    "AI-generated emails require human approval", PolicyType.ai_behavior,
    [("tool_type", PyVal.str "email"), ("ai_generated", PyVal.bool true)],
    PolicyAction.require_approval, 100, true⟩,
   ⟨"external_email_restriction", "External Email Restriction",
    "Restrict emails to external domains during non-business hours", PolicyType.communication,
    [("email_domain", PyVal.dict [("operator", PyVal.str "not_in"),
                                  ("values", PyVal.list [PyVal.str "company.com"])]),
     ("business_hours", PyVal.bool false)],
    PolicyAction.deny, 100, true⟩,
   ⟨"pii_redaction", "PII Redaction",
    "Redact personally identifiable information in logs", PolicyType.privacy,
    [("contains_pii", PyVal.bool true)],
    PolicyAction.redact, 100, true⟩]

/-- The existing-policy scan of `_initialize_default_policies`: is a rule with
this `rule_id` registered under any policy type? -/
def ruleIdExists (policies : List (PolicyType × List PolicyRule)) (rid : String) : Bool :=
  policies.any (fun e => e.2.any (fun r => r.rule_id == rid))

/-- `PolicyEngine._initialize_default_policies`: append each default rule not
already present (by `rule_id`) to the end of its type's list, with no
re-sorting. -/
def _initialize_default_policies (policies : List (PolicyType × List PolicyRule)) :
    List (PolicyType × List PolicyRule) :=
  default_policies.foldl
    (fun acc pr => if ruleIdExists acc pr.rule_id then acc else policiesAdd acc pr.policy_type [pr])
    policies

/-- The `self.policies` dict after `PolicyEngine.__init__`: load from storage,
then seed defaults. -/
def engine_policies (stored : List StoredPolicy) : List (PolicyType × List PolicyRule) :=
  _initialize_default_policies (_load_policies stored)

/-- The registered policy handlers, restricted to the fields `authorize_action`
reads back: `allowed`, `requires_approval` and `message`. -/
def policyHandler (action : PolicyAction) : Bool × Bool × String :=
  match action with
  | PolicyAction.allow => (true, false, "Action allowed")
  | PolicyAction.deny => (false, false, "Action denied by policy")
  | PolicyAction.require_approval => (false, true, "Action requires approval")
  | PolicyAction.log_only => (true, false, "Action logged")
  | PolicyAction.redact => (true, false, "Sensitive data redacted")

/-- Result of `PolicyEngine.enforce_policy` as consumed by callers. -/
structure EnforcementResult where
  action : PolicyAction
  violations : List Violation
  allowed : Bool
  requires_approval : Bool
  message : String
deriving DecidableEq

/-- `PolicyEngine.enforce_policy`: evaluate, then merge in the handler result
for the winning action. -/
def enforce_policy (rm : PyVal → String → Bool)
    (policies : List (PolicyType × List PolicyRule)) (policy_type : PolicyType)
    (context : List (String × PyVal)) : EnforcementResult :=
  let er := evaluate_policies rm policies policy_type context
  let h := policyHandler er.action
  ⟨er.action, er.violations, h.1, h.2.1, h.2.2⟩

/-- The `.value` strings of the `Permission` enumeration. -/
def Permission.value : Permission → String
  | Permission.read_leads => "read_leads"
  | Permission.write_leads => "write_leads"
  | Permission.delete_leads => "delete_leads"
  | Permission.read_accounts => "read_accounts"
  | Permission.write_accounts => "write_accounts"
  | Permission.delete_accounts => "delete_accounts"
  | Permission.read_opportunities => "read_opportunities"
  | Permission.write_opportunities => "write_opportunities"
  | Permission.delete_opportunities => "delete_opportunities"
  | Permission.execute_ai_tools => "execute_ai_tools"
  | Permission.approve_ai_decisions => "approve_ai_decisions"
  | Permission.configure_ai_workflows => "configure_ai_workflows"
  | Permission.access_ai_memory => "access_ai_memory"
  | Permission.send_emails => "send_emails"
  | Permission.schedule_meetings => "schedule_meetings"
  | Permission.make_calls => "make_calls"
  | Permission.manage_users => "manage_users"
  | Permission.manage_roles => "manage_roles"
  | Permission.view_analytics => "view_analytics"
  | Permission.export_data => "export_data"
  | Permission.configure_system => "configure_system"
  | Permission.view_audit_logs => "view_audit_logs"
  | Permission.manage_compliance => "manage_compliance"
  | Permission.data_retention => "data_retention"

/-- Permission set of the seeded default role `viewer`
(`RBACManager._initialize_default_roles`). -/
def viewer_permissions : List Permission :=
  [Permission.read_leads, Permission.read_accounts,
   Permission.read_opportunities, Permission.view_analytics]

/-- Permission set of the seeded default role `sales_rep`. -/
def sales_rep_permissions : List Permission :=
  [Permission.read_leads, Permission.write_leads,
   Permission.read_accounts, Permission.write_accounts,
   Permission.read_opportunities, Permission.write_opportunities,
   Permission.execute_ai_tools,
   Permission.send_emails, Permission.schedule_meetings]

/-- The fixed `(action, resource_type) → Permission` table of
`GovernanceSystem._map_action_to_permission`. -/
def permission_map : List ((String × String) × Permission) :=
  [(("read", "lead"), Permission.read_leads),
   (("write", "lead"), Permission.write_leads),
   (("delete", "lead"), Permission.delete_leads),
   (("read", "account"), Permission.read_accounts),
   (("write", "account"), Permission.write_accounts),
   (("delete", "account"), Permission.delete_accounts),
   (("read", "opportunity"), Permission.read_opportunities),
   (("write", "opportunity"), Permission.write_opportunities),
   (("delete", "opportunity"), Permission.delete_opportunities),
   (("execute", "ai_tool"), Permission.execute_ai_tools),
   (("approve", "ai_decision"), Permission.approve_ai_decisions),
   (("send", "email"), Permission.send_emails),
   (("schedule", "meeting"), Permission.schedule_meetings)]

/-- `GovernanceSystem._map_action_to_permission` (a `None` resource type can
never hit the table, exactly as `dict.get((action, None))` misses). -/
def _map_action_to_permission (action : String) (resource_type : Option String) :
    Option Permission :=
  match resource_type with
  | Option.none => Option.none
  | Option.some rt =>
      match permission_map.find? (fun e => e.1.1 == action && e.1.2 == rt) with
      | Option.none => Option.none
      | Option.some e => Option.some e.2

/-- `GovernanceSystem._map_action_to_policy_type`. -/
def _map_action_to_policy_type (action : String) (resource_type : Option String) : PolicyType :=
  if action = "read" ∨ action = "write" ∨ action = "delete" then PolicyType.data_access
  else if action = "execute" ∧ resource_type = Option.some "ai_tool" then PolicyType.ai_behavior
  else if action = "send" ∨ action = "schedule" then PolicyType.communication
  else PolicyType.security


/-- A `None`-able string as a context value. -/
def optVal (o : Option String) : PyVal :=
  match o with
  | Option.none => PyVal.none
  | Option.some s => PyVal.str s

/-- `d[k] = v` on a modelled dict: overwrite in place when the key exists,
append otherwise — the semantics of Python dict update. -/
def dictSet (d : List (String × PyVal)) (k : String) (v : PyVal) : List (String × PyVal) :=
  if d.any (fun e => e.1 == k) then d.map (fun e => if e.1 == k then (k, v) else e)
  else d ++ [(k, v)]

/-- `{**base, **extra}`: entries of `extra` override entries of `base`, new
keys are appended in order. -/
def dictMerge (base extra : List (String × PyVal)) : List (String × PyVal) :=
  extra.foldl (fun acc e => dictSet acc e.1 e.2) base

/-- One audit log entry, restricted to the fields `AuditManager.log_event`
derives from its arguments (the generated `audit_id` and clock timestamp are
not modelled). -/
structure AuditEvent where
  event_type : AuditEventType
  user_id : String
  action : String
  resource_type : Option String
  resource_id : Option String
  details : List (String × PyVal)
  policy_violations : List Violation

/-- One entry of `GovernanceSystem.approval_queue` (the `policy_result`
snapshot is not read back by any code and is omitted).  The
`approver_user_id`, `approved_at` and `comments` keys are absent until a
resolution writes them. -/
structure ApprovalRequest where
  approval_id : String
  user_id : String
  action : String
  context : List (String × PyVal)
  requested_at : String
  status : String
  approver_user_id : Option String
  approved_at : Option String
  comments : Option String

/-- The dict returned by `GovernanceSystem.authorize_action` (`approval_id`
and `violations` are present only on the branches that set them). -/
structure AuthResult where
  authorized : Bool
  reason : Option String
  approval_id : Option String
  message : String
  violations : List Violation

/-- Output of one `authorize_action` call: the returned dict, the audit events
emitted during the call in order, the approval queue afterwards, and whether
`enforce_policy` ran. -/
structure AuthOutput where
  result : AuthResult
  events : List AuditEvent
  approval_queue : List (String × ApprovalRequest)
  enforce_policy_called : Bool

/-- Steps 3–7 of `authorize_action`: policy enforcement, the attempt audit
event, and the result branches. -/
def authorize_policy_path (rm : PyVal → String → Bool)
    (policies : List (PolicyType × List PolicyRule))
    (approval_queue : List (String × ApprovalRequest)) (new_approval_id now : String)
    (user_id action : String) (resource_type resource_id : Option String)
    (full_context : List (String × PyVal)) : AuthOutput :=
  let policy_type := _map_action_to_policy_type action resource_type
  let policy_result := enforce_policy rm policies policy_type full_context
  let event : AuditEvent :=
    ⟨if strStartsWith action "read" then AuditEventType.data_access
      else AuditEventType.data_modification,
     user_id, action, resource_type, resource_id, full_context, policy_result.violations⟩
  if policy_result.allowed = false then
    if policy_result.requires_approval then
      let request : ApprovalRequest :=
        ⟨new_approval_id, user_id, action, full_context, now, "pending",
         Option.none, Option.none, Option.none⟩
      ⟨⟨false, Option.some "requires_approval", Option.some new_approval_id,
        "Action requires approval from authorized personnel", []⟩,
       [event], approval_queue ++ [(new_approval_id, request)], true⟩
    else
      ⟨⟨false, Option.some "policy_violation", Option.none,
        policy_result.message, policy_result.violations⟩,
       [event], approval_queue, true⟩
  else
    ⟨⟨true, Option.none, Option.none, "Action authorized", []⟩,
     [event], approval_queue, true⟩

/-- `GovernanceSystem.authorize_action`.  `has_permission` abstracts
`RBACManager.has_permission` (a database query), `now` the timestamp, and
`new_approval_id` the `uuid4` an approval enqueue would draw. -/
def authorize_action (rm : PyVal → String → Bool)
    (policies : List (PolicyType × List PolicyRule))
    (has_permission : String → Permission → Bool)
    (approval_queue : List (String × ApprovalRequest)) (new_approval_id now : String)
    (user_id action : String) (resource_type resource_id : Option String)
    (context : List (String × PyVal)) : AuthOutput :=
  let full_context :=
    dictMerge
      [("user_id", PyVal.str user_id), ("action", PyVal.str action),
       ("resource_type", optVal resource_type), ("resource_id", optVal resource_id),
       ("timestamp", PyVal.str now)]
      context
  match _map_action_to_permission action resource_type with
  | Option.some required_permission =>
      if has_permission user_id required_permission = false then
        ⟨⟨false, Option.some "insufficient_permissions", Option.none,
          "User lacks required permission: " ++ required_permission.value, []⟩,
         [⟨AuditEventType.permission_denied, user_id, action, resource_type, resource_id,
           full_context, []⟩],
         approval_queue, false⟩
      else
        authorize_policy_path rm policies approval_queue new_approval_id now
          user_id action resource_type resource_id full_context
  | Option.none =>
      authorize_policy_path rm policies approval_queue new_approval_id now
        user_id action resource_type resource_id full_context

/-- The dict returned by `GovernanceSystem.approve_action` (`approved` is
present only on success). -/
structure ApproveResult where
  success : Bool
  approved : Option Bool
  message : String
deriving DecidableEq

/-- The resolution write of `approve_action` on the queued request. -/
def resolveRequest (request : ApprovalRequest) (approver_user_id : String) (approved : Bool)
    (comments : Option String) (now : String) : ApprovalRequest :=
  { request with
    status := if approved then "approved" else "denied",
    approver_user_id := Option.some approver_user_id,
    approved_at := Option.some now,
    comments := comments }

/-- `GovernanceSystem.approve_action`: returns the result dict, the approval
queue afterwards, and the audit events emitted. -/
def approve_action (approval_queue : List (String × ApprovalRequest))
    (has_permission : String → Permission → Bool) (now : String)
    (approval_id approver_user_id : String) (approved : Bool) (comments : Option String) :
    ApproveResult × List (String × ApprovalRequest) × List AuditEvent :=
  match approval_queue.find? (fun e => e.1 == approval_id) with
  | Option.none => (⟨false, Option.none, "Approval request not found"⟩, approval_queue, [])
  | Option.some entry =>
      if has_permission approver_user_id Permission.approve_ai_decisions = false then
        (⟨false, Option.none, "Insufficient permissions to approve"⟩, approval_queue, [])
      else
        let approval_request := entry.2
        let queue := approval_queue.map
          (fun e => if e.1 == approval_id then
              (e.1, resolveRequest e.2 approver_user_id approved comments now)
            else e)
        let event : AuditEvent :=
          ⟨AuditEventType.ai_decision, approver_user_id,
           if approved then "approve_action" else "deny_action",
           Option.none, Option.none,
           [("approval_id", PyVal.str approval_id),
            ("original_user_id", PyVal.str approval_request.user_id),
            ("original_action", PyVal.str approval_request.action),
            ("approved", PyVal.bool approved),
            ("comments", optVal comments)],
           []⟩
        (⟨true, Option.some approved,
          if approved then "Action approved" else "Action denied"⟩, queue, [event])


/-- The `WorkflowStatus` enumeration of `workflow_engine.py`. -/
inductive WorkflowStatus where
  | draft | active | paused | completed | failed | cancelled
deriving DecidableEq

/-- A workflow step as consumed by the scheduling loop of
`WorkflowEngine._execute_workflow`: its id, its dependency step ids, and, for
each entry of `conditions`, the value of the dict's `step` key (`None` when
absent; the `result` key is read into a local but never used by
`_check_step_conditions`).  The step's executor behaviour (`action_type`,
`config`, timeout) only determines whether `_execute_step` returns or raises,
which the run model abstracts as a per-step-id outcome function. -/
structure WorkflowStep where
  id : String
  dependencies : List String
  conditions : List (Option String)

/-- `WorkflowEngine._check_step_conditions`: every condition's `step` entry
must already be in `completed_steps`; a condition without a `step` key can
never satisfy the membership test. -/
def _check_step_conditions (step : WorkflowStep) (completed_steps : List String) : Bool :=
  step.conditions.all (fun c =>
    match c with
    | Option.some dep_step => completed_steps.contains dep_step
    | Option.none => false)

/-- The ready filter of `_execute_workflow`: all dependencies completed and
conditions satisfied. -/
def stepReady (step : WorkflowStep) (completed_steps : List String) : Bool :=
  step.dependencies.all (fun dep => completed_steps.contains dep) &&
    _check_step_conditions step completed_steps

/-- Mutable loop state of one `_execute_workflow` run: the execution's
`completed_steps` and `failed_steps` (insertion-ordered lists standing for the
Python sets), plus `trace`, an instrumentation list recording every executed
step in execution order. -/
structure ExecState where
  completed_steps : List String
  failed_steps : List String
  trace : List WorkflowStep

/-- One insertion of the dict comprehension
`{step.id: step for step in workflow.steps}`: a repeated id overwrites the
stored step in place, a new id is appended. -/
def remainingInsert (l : List WorkflowStep) (s : WorkflowStep) : List WorkflowStep :=
  if l.any (fun t => t.id == s.id) then l.map (fun t => if t.id == s.id then s else t)
  else l ++ [s]

/-- `remaining_steps` as first built by `_execute_workflow`. -/
def buildRemaining (steps : List WorkflowStep) : List WorkflowStep :=
  steps.foldl remainingInsert []

/-- `remaining_steps.pop(step.id)`. -/
def removeStep (l : List WorkflowStep) (sid : String) : List WorkflowStep :=
  l.eraseP (fun t => t.id == sid)

/-- The `for step in ready_steps` body of `_execute_workflow`: a step whose
execution returns is added to `completed_steps`, one whose execution raises
(timeout included) is added to `failed_steps`; either way it is popped from
`remaining_steps` and the loop continues with the next ready step. -/
def execBatch (execOk : String → Bool) :
    List WorkflowStep → ExecState → List WorkflowStep → ExecState × List WorkflowStep
  | [], st, remaining => (st, remaining)
  | step :: rest, st, remaining =>
      let st' :=
        if execOk step.id then
          { st with completed_steps := st.completed_steps ++ [step.id],
                    trace := st.trace ++ [step] }
        else
          { st with failed_steps := st.failed_steps ++ [step.id],
                    trace := st.trace ++ [step] }
      execBatch execOk rest st' (removeStep remaining step.id)

theorem length_execBatch_le (execOk : String → Bool) :
    ∀ (batch : List WorkflowStep) (st : ExecState) (remaining : List WorkflowStep),
    (execBatch execOk batch st remaining).2.length ≤ remaining.length := by
  intro batch
  induction batch with
  | nil => intro st remaining; simp [execBatch]
  | cons step rest ih =>
      intro st remaining
      refine le_trans (ih _ _) ?_
      exact List.length_eraseP_le remaining

theorem length_execBatch_lt (execOk : String → Bool) (b : WorkflowStep)
    (rest : List WorkflowStep) (st : ExecState) (remaining : List WorkflowStep)
    (hb : b ∈ remaining) :
    (execBatch execOk (b :: rest) st remaining).2.length < remaining.length := by
  have hp : (b.id == b.id) = true := by simp
  have h1 := List.length_eraseP_of_mem (p := fun t => t.id == b.id) hb hp
  have h2 : 0 < remaining.length := List.length_pos.mpr (List.ne_nil_of_mem hb)
  calc (execBatch execOk (b :: rest) st remaining).2.length
      ≤ (removeStep remaining b.id).length := length_execBatch_le execOk rest _ _
    _ < remaining.length := by
        unfold removeStep
        omega

set_option linter.unusedVariables false in
/-- The `while remaining_steps and execution.status == ACTIVE` loop of
`_execute_workflow` (the status is written only after the loop, so the second
conjunct never exits it): compute the ready set against the current
`completed_steps`, stop when it is empty, otherwise execute the whole batch
and re-evaluate. -/
def execLoop (execOk : String → Bool) (st : ExecState) (remaining : List WorkflowStep) :
    ExecState × List WorkflowStep :=
  if remaining.isEmpty then (st, remaining)
  else
    let ready_steps := remaining.filter (fun s => stepReady s st.completed_steps)
    if h : ready_steps.isEmpty then (st, remaining)
    else
      execLoop execOk (execBatch execOk ready_steps st remaining).1
        (execBatch execOk ready_steps st remaining).2
termination_by remaining.length
decreasing_by
  have hne2 : List.filter (fun s => stepReady s st.completed_steps) remaining ≠ [] := by
    intro h0
    apply h
    show (List.filter (fun s => stepReady s st.completed_steps) remaining).isEmpty = true
    rw [h0]
    rfl
  cases hr : List.filter (fun s => stepReady s st.completed_steps) remaining with
  | nil => exact absurd hr hne2
  | cons b rest =>
      have hbf : b ∈ List.filter (fun s => stepReady s st.completed_steps) remaining := by
        rw [hr]
        exact List.mem_cons_self b rest
      have hb : b ∈ remaining := List.mem_of_mem_filter hbf
      exact length_execBatch_lt execOk b rest st remaining hb

/-- Outcome of one `WorkflowEngine._execute_workflow` run. -/
structure WorkflowRun where
  status : WorkflowStatus
  completed_steps : List String
  failed_steps : List String
  trace : List WorkflowStep
  remaining : List WorkflowStep

/-- `WorkflowEngine._execute_workflow` for a found workflow, starting from the
fresh execution `trigger_workflow` creates (empty `completed_steps` and
`failed_steps`, status ACTIVE).  `execOk sid` abstracts whether
`_execute_step` on the step with id `sid` returns normally (`true`) or raises
— executor exception, missing executor, or `asyncio.TimeoutError` alike
(`false`). -/
def _execute_workflow (execOk : String → Bool) (steps : List WorkflowStep) : WorkflowRun :=
  let remaining₀ := buildRemaining steps
  let out := execLoop execOk ⟨[], [], []⟩ remaining₀
  let status :=
    if out.1.failed_steps.isEmpty = false then WorkflowStatus.failed
    else if out.2.isEmpty then WorkflowStatus.completed
    else WorkflowStatus.paused
  ⟨status, out.1.completed_steps, out.1.failed_steps, out.1.trace, out.2⟩

/-- The loop body of `AIToolExecutor._substitute_variables`: a parameter
whose value is a string starting with the two characters of a placeholder
opener is replaced by `context.variables.get(var_name, value)`, where
`var_name` strips the leading two characters and the final character; every
other parameter passes through unchanged. -/
def substituteParam (vs : List (String × PyVal)) (e : String × PyVal) :
    String × PyVal :=
  match e.2 with
  | PyVal.str s =>
      if strStartsWith s "$\x7b" then
        (e.1, dictGetD vs (strDropRight (strDrop s 2) 1) (PyVal.str s))
      else e
  | _ => e

/-- `AIToolExecutor._substitute_variables(parameters, context)` builds the
result dict entry by entry from `substituteParam`. -/
def _substitute_variables (parameters vs : List (String × PyVal)) :
    List (String × PyVal) :=
  parameters.map (substituteParam vs)

/-- Modelled from the spec: the substitution the claim describes, resolving a
placeholder against `context.variables` first and `context.data` second, the
placeholder kept only when both miss. -/
def substituteParamSpec (vs data : List (String × PyVal)) (e : String × PyVal) :
    String × PyVal :=
  match e.2 with
  | PyVal.str s =>
      if strStartsWith s "$\x7b" then
        (e.1, dictGetD vs (strDropRight (strDrop s 2) 1)
                (dictGetD data (strDropRight (strDrop s 2) 1) (PyVal.str s)))
      else e
  | _ => e

/-- Modelled from the spec: the whole substitution the claim describes. -/
def substitute_variables_per_spec (parameters vs data : List (String × PyVal)) :
    List (String × PyVal) :=
  parameters.map (substituteParamSpec vs data)


/-- A degenerate regex semantics used to instantiate the abstract `re.match`
parameter on concrete inputs that never reach a regex condition. -/
def rmFalse : PyVal → String → Bool := fun _ _ => false

/-- Modelled from the spec: the rank of an action under the fixed dominance
order DENY > REQUIRE_APPROVAL > REDACT > LOG_ONLY > ALLOW. -/
def dominanceRank : PolicyAction → Nat
  | PolicyAction.deny => 4
  | PolicyAction.require_approval => 3
  | PolicyAction.redact => 2
  | PolicyAction.log_only => 1
  | PolicyAction.allow => 0

/-- Modelled from the spec: the most restrictive action of a list under the
dominance order (ALLOW when the list is empty). -/
def mostRestrictive (actions : List PolicyAction) : PolicyAction :=
  actions.foldl (fun a b => if dominanceRank a < dominanceRank b then b else a)
    PolicyAction.allow

/-- C9: with no rules registered for the policy type — the type entirely
absent from `self.policies`, or present with an empty rule list —
`evaluate_policies` returns action ALLOW and an empty violations list. -/
theorem evaluate_policies_allow_when_no_rules (rm : PyVal → String → Bool)
    (policies : List (PolicyType × List PolicyRule)) (pt : PolicyType)
    (context : List (String × PyVal))
    (h : policiesGet policies pt = Option.none ∨ policiesGet policies pt = Option.some []) :
    evaluate_policies rm policies pt context = ⟨PolicyAction.allow, []⟩ := by
  rcases h with h | h <;> simp [evaluate_policies, h, evaluate_rules]

theorem evaluate_policies_allow_when_no_rules_witness :
    evaluate_policies rmFalse [] PolicyType.retention [] = ⟨PolicyAction.allow, []⟩ :=
  evaluate_policies_allow_when_no_rules rmFalse [] PolicyType.retention []
    (Or.inl rfl)

/-- The condition loop of `matches` succeeds exactly when every condition is
satisfied against `context.get(key)` with its `None` default. -/
theorem matchesConditions_iff (rm : PyVal → String → Bool)
    (context : List (String × PyVal)) (conds : List (String × PyVal)) :
    matchesConditions rm context conds = true ↔
      ∀ kv ∈ conds,
        conditionSatisfied rm kv.2 (dictGetD context kv.1 PyVal.none) = true := by
  induction conds with
  | nil => simp [matchesConditions]
  | cons kv rest ih =>
      cases kv with
      | mk k v =>
          by_cases h : conditionSatisfied rm v (dictGetD context k PyVal.none) = true
          · simp [matchesConditions, h, ih]
          · simp [matchesConditions, h]

/-- A rule with a `not_in` condition on `email_domain`, evaluated against the
empty context: the key is absent, yet the rule matches. -/
def ruleNotInC3 : PolicyRule :=
  ⟨"r_notin", "NotIn", "not_in on a missing key", PolicyType.communication,
   [("email_domain", PyVal.dict [("operator", PyVal.str "not_in"),
                                 ("values", PyVal.list [PyVal.str "company.com"])])],
   PolicyAction.deny, 100, true⟩

/-- C3 counterexample: the context holds no `email_domain` key at all, but the
rule whose only condition is a `not_in` matcher on that key still matches —
key presence is not required, contradicting the claim. -/
theorem matches_missing_key_not_in_counterexample :
    dictGet [] "email_domain" = Option.none ∧
    ruleNotInC3.matches rmFalse [] = true := by
  exact ⟨rfl, rfl⟩

/-- C3 (amended): a rule matches iff it is enabled and every condition is
satisfied by the context value of its key, where an absent key yields `None`
and is tested by the matcher like any other value (literal equality by
default, or the in / not-in / contains / regex operator). -/
theorem matches_iff_conditions_on_absent_default (rule : PolicyRule)
    (rm : PyVal → String → Bool) (context : List (String × PyVal)) :
    rule.matches rm context = true ↔
      rule.enabled = true ∧
      ∀ kv ∈ rule.conditions,
        conditionSatisfied rm kv.2 (dictGetD context kv.1 PyVal.none) = true := by
  cases he : rule.enabled <;>
    simp [PolicyRule.matches, he, matchesConditions_iff]

theorem matches_iff_conditions_witness :
    (⟨"r_eq", "Eq", "", PolicyType.data_access,
      [("resource_type", PyVal.str "lead")], PolicyAction.allow, 100, true⟩ :
        PolicyRule).matches rmFalse [("resource_type", PyVal.str "lead")] = true :=
  (matches_iff_conditions_on_absent_default _ rmFalse _).mpr
    (by
      refine ⟨rfl, ?_⟩
      intro kv hkv
      simp only [List.mem_singleton] at hkv
      subst hkv
      rfl)


/-- On a rule list with no matched DENY rule, the evaluation loop is the left
fold of `upgradeAction` over the matched actions, and the violations are the
matched rules in list order. -/
theorem evaluate_rules_of_no_deny (rm : PyVal → String → Bool)
    (context : List (String × PyVal)) :
    ∀ (rules : List PolicyRule) (violations : List Violation) (final : PolicyAction),
    (∀ r ∈ rules, r.matches rm context = true → r.action ≠ PolicyAction.deny) →
    evaluate_rules rm context rules violations final =
      ⟨((rules.filter (fun r => r.matches rm context)).map PolicyRule.action).foldl
          upgradeAction final,
       violations ++ (rules.filter (fun r => r.matches rm context)).map violationOf⟩ := by
  intro rules
  induction rules with
  | nil => intro v f _; simp [evaluate_rules]
  | cons r rest ih =>
      intro v f h
      have hrest : ∀ x ∈ rest, x.matches rm context = true → x.action ≠ PolicyAction.deny :=
        fun x hx => h x (List.mem_cons_of_mem r hx)
      by_cases hm : r.matches rm context = true
      · have hnd : r.action ≠ PolicyAction.deny := h r (List.mem_cons_self r rest) hm
        simp [evaluate_rules, hm, hnd, ih _ _ hrest, List.filter_cons]
      · simp [evaluate_rules, hm, ih _ _ hrest, List.filter_cons]

/-- A REDACT rule at priority 10 followed by a REQUIRE_APPROVAL rule at
priority 20, both condition-free. -/
def rulesC1 : List PolicyRule :=
  [⟨"r_redact", "Redact First", "", PolicyType.data_access, [],
    PolicyAction.redact, 10, true⟩,
   ⟨"r_approval", "Approval Second", "", PolicyType.data_access, [],
    PolicyAction.require_approval, 20, true⟩]

/-- The engine state registering `rulesC1` for DATA_ACCESS. -/
def policiesC1 : List (PolicyType × List PolicyRule) :=
  [(PolicyType.data_access, rulesC1)]

/-- C1 counterexample: both rules match and neither is DENY; the most
restrictive matched action under the dominance order is REQUIRE_APPROVAL, yet
`evaluate_policies` returns REDACT, because a matched REQUIRE_APPROVAL rule
upgrades the running action only from ALLOW.  The claim's pair statement fails
in the REDACT-before-REQUIRE_APPROVAL match order. -/
theorem evaluate_policies_pair_order_counterexample :
    ((rulesC1.filter (fun r => r.matches rmFalse [])).map PolicyRule.action) =
      [PolicyAction.redact, PolicyAction.require_approval] ∧
    mostRestrictive [PolicyAction.redact, PolicyAction.require_approval] =
      PolicyAction.require_approval ∧
    (evaluate_policies rmFalse policiesC1 PolicyType.data_access []).action =
      PolicyAction.redact ∧
    PolicyAction.redact ≠ PolicyAction.require_approval := by
  refine ⟨rfl, rfl, rfl, ?_⟩
  decide

/-- C1 (amended): absent any matched DENY rule, the final action is the left
fold of the matched actions, in match order, under the one-step upgrade rule
of the code: REQUIRE_APPROVAL replaces only ALLOW, REDACT replaces only ALLOW
or LOG_ONLY, LOG_ONLY replaces only ALLOW.  For a pair of matched
REQUIRE_APPROVAL and REDACT rules, the one matched first therefore wins, in
either order; the fixed dominance order of the claim holds only when no more
restrictive action is matched after a less restrictive one. -/
theorem evaluate_policies_action_fold_of_no_deny (rm : PyVal → String → Bool)
    (policies : List (PolicyType × List PolicyRule)) (pt : PolicyType)
    (context : List (String × PyVal)) (rules : List PolicyRule)
    (hrules : policiesGet policies pt = Option.some rules)
    (hnodeny : ∀ r ∈ rules, r.matches rm context = true → r.action ≠ PolicyAction.deny) :
    (evaluate_policies rm policies pt context).action =
      ((rules.filter (fun r => r.matches rm context)).map PolicyRule.action).foldl
        upgradeAction PolicyAction.allow ∧
    (evaluate_policies rm policies pt context).violations =
      (rules.filter (fun r => r.matches rm context)).map violationOf := by
  simp [evaluate_policies, hrules,
    evaluate_rules_of_no_deny rm context rules [] PolicyAction.allow hnodeny]

theorem evaluate_policies_action_fold_witness :
    (evaluate_policies rmFalse policiesC1 PolicyType.data_access
      [("k", PyVal.str "v")]).action =
      ((rulesC1.filter (fun r => r.matches rmFalse [("k", PyVal.str "v")])).map
        PolicyRule.action).foldl upgradeAction PolicyAction.allow :=
  (evaluate_policies_action_fold_of_no_deny rmFalse policiesC1 PolicyType.data_access
    [("k", PyVal.str "v")] rulesC1 rfl (by decide)).1



/-- An approval queue holding one request already resolved as approved by
`carol` at `t1`. -/
def queueC5 : List (String × ApprovalRequest) :=
  [("ap1", ⟨"ap1", "alice", "send", [], "t0", "approved",
            Option.some "carol", Option.some "t1", Option.none⟩)]

/-- C5 counterexample: a second `approve_action` on the already-approved
request `ap1` returns success — not an already-resolved error — and overwrites
the stored status, approver identity and resolution timestamp. -/
theorem approve_action_double_resolution_counterexample :
    (approve_action queueC5 (fun _ _ => true) "t2" "ap1" "bob" false Option.none).1 =
      ⟨true, Option.some false, "Action denied"⟩ ∧
    ((approve_action queueC5 (fun _ _ => true) "t2" "ap1" "bob" false
        Option.none).2.1.map (fun e => e.2.status)) = ["denied"] ∧
    ((approve_action queueC5 (fun _ _ => true) "t2" "ap1" "bob" false
        Option.none).2.1.map (fun e => e.2.approver_user_id)) = [Option.some "bob"] ∧
    ((approve_action queueC5 (fun _ _ => true) "t2" "ap1" "bob" false
        Option.none).2.1.map (fun e => e.2.approved_at)) = [Option.some "t2"] :=
  ⟨rfl, rfl, rfl, rfl⟩

/-- C5 (amended): `approve_action` never checks the current status of a found
request: whenever the approval id is queued and the approver holds
APPROVE_AI_DECISIONS, the call succeeds and overwrites the stored status,
approver identity, resolution timestamp and comments — also when the request
was already approved or denied.  Only a missing approval id or a missing
permission is an error. -/
theorem approve_action_resolves_unconditionally
    (queue : List (String × ApprovalRequest))
    (has_permission : String → Permission → Bool)
    (now approval_id approver_user_id : String) (approved : Bool)
    (comments : Option String) (entry : String × ApprovalRequest)
    (hfind : queue.find? (fun e => e.1 == approval_id) = Option.some entry)
    (hperm : has_permission approver_user_id Permission.approve_ai_decisions = true) :
    (approve_action queue has_permission now approval_id approver_user_id approved
      comments).1 =
      ⟨true, Option.some approved,
       if approved then "Action approved" else "Action denied"⟩ ∧
    (approve_action queue has_permission now approval_id approver_user_id approved
      comments).2.1 =
      queue.map (fun e =>
        if e.1 == approval_id then
          (e.1, resolveRequest e.2 approver_user_id approved comments now)
        else e) := by
  simp [approve_action, hfind, hperm]

theorem approve_action_resolves_witness :
    (approve_action
      [("ap2", ⟨"ap2", "erin", "send", [], "t0", "pending",
                Option.none, Option.none, Option.none⟩)]
      (fun _ _ => true) "t1" "ap2" "dana" true Option.none).1 =
      ⟨true, Option.some true, "Action approved"⟩ :=
  (approve_action_resolves_unconditionally
    [("ap2", ⟨"ap2", "erin", "send", [], "t0", "pending",
              Option.none, Option.none, Option.none⟩)]
    (fun _ _ => true) "t1" "ap2" "dana" true Option.none
    ("ap2", ⟨"ap2", "erin", "send", [], "t0", "pending",
             Option.none, Option.none, Option.none⟩) rfl rfl).1

/-- A step parameter dict holding one placeholder for `lead_email`. -/
def paramsC8 : List (String × PyVal) := [("to", PyVal.str "$\x7blead_email\x7d")]

/-- Context data binding `lead_email` (while `context.variables` is empty). -/
def dataC8 : List (String × PyVal) := [("lead_email", PyVal.str "lead@example.com")]

/-- C8 counterexample: the placeholder's name is bound only in `context.data`.
The substitution the claim describes resolves it to that data value, but
`_substitute_variables` consults only `context.variables` and returns the
placeholder string unchanged. -/
theorem substitute_variables_data_fallback_counterexample :
    _substitute_variables paramsC8 [] = [("to", PyVal.str "$\x7blead_email\x7d")] ∧
    substitute_variables_per_spec paramsC8 [] dataC8 =
      [("to", PyVal.str "lead@example.com")] ∧
    PyVal.str "$\x7blead_email\x7d" ≠ PyVal.str "lead@example.com" :=
  ⟨rfl, rfl, by simp⟩

theorem substituteParam_fst (vs : List (String × PyVal)) (e : String × PyVal) :
    (substituteParam vs e).1 = e.1 := by
  obtain ⟨a, b⟩ := e
  cases b
  case str => simp only [substituteParam]; split <;> rfl
  all_goals rfl

theorem find?_map_key_preserving (g : String × PyVal → String × PyVal)
    (hg : ∀ e, (g e).1 = e.1) (l : List (String × PyVal)) (k : String) :
    List.find? (fun e => e.1 == k) (l.map g) =
      Option.map g (List.find? (fun e => e.1 == k) l) := by
  induction l with
  | nil => rfl
  | cons e rest ih =>
      by_cases hk : (e.1 == k) = true
      · simp [List.find?_cons, hg e, hk]
      · simp [List.find?_cons, hg e, hk, ih]

/-- C8 (amended): the executor substitutes a `${varName}` parameter by looking
the name up in `context.variables` only; a name not bound there leaves the
parameter as the unchanged placeholder string — `context.data` is never
consulted (the substitution reads no data at all). -/
theorem substitute_variables_only_variables (parameters vs : List (String × PyVal))
    (k s : String)
    (hfind : dictGet parameters k = Option.some (PyVal.str s))
    (hph : strStartsWith s "$\x7b" = true) :
    dictGet (_substitute_variables parameters vs) k =
      Option.some (dictGetD vs (strDropRight (strDrop s 2) 1) (PyVal.str s)) := by
  unfold dictGet at hfind ⊢
  unfold _substitute_variables
  rw [find?_map_key_preserving (substituteParam vs) (substituteParam_fst vs)]
  cases hfe : List.find? (fun e => e.1 == k) parameters with
  | none => rw [hfe] at hfind; simp at hfind
  | some e =>
      rw [hfe] at hfind
      simp only [Option.some.injEq] at hfind
      simp [substituteParam, hfind, hph]

theorem substitute_variables_only_variables_witness :
    dictGet (_substitute_variables
      [("to", PyVal.str "$\x7blead_email\x7d")]
      [("lead_email", PyVal.str "rep@example.com")]) "to" =
      Option.some (PyVal.str "rep@example.com") :=
  substitute_variables_only_variables
    [("to", PyVal.str "$\x7blead_email\x7d")]
    [("lead_email", PyVal.str "rep@example.com")]
    "to" "$\x7blead_email\x7d" rfl rfl


/-- C4: when the fixed `(action, resource_type)` table yields a required
permission the user does not hold, `authorize_action` emits exactly one
PERMISSION_DENIED audit event carrying no policy violations, returns
`authorized = false` with reason `insufficient_permissions`, runs no policy
evaluation (`enforce_policy` is never called), and leaves the approval queue
untouched. -/
theorem authorize_action_permission_denied_terminal (rm : PyVal → String → Bool)
    (policies : List (PolicyType × List PolicyRule))
    (has_permission : String → Permission → Bool)
    (approval_queue : List (String × ApprovalRequest))
    (new_approval_id now user_id action : String)
    (resource_type resource_id : Option String) (context : List (String × PyVal))
    (p : Permission)
    (hmap : _map_action_to_permission action resource_type = Option.some p)
    (hperm : has_permission user_id p = false) :
    (authorize_action rm policies has_permission approval_queue new_approval_id now
      user_id action resource_type resource_id context).result.authorized = false ∧
    (authorize_action rm policies has_permission approval_queue new_approval_id now
      user_id action resource_type resource_id context).result.reason =
      Option.some "insufficient_permissions" ∧
    ((authorize_action rm policies has_permission approval_queue new_approval_id now
      user_id action resource_type resource_id context).events.map
        (fun e => e.event_type)) = [AuditEventType.permission_denied] ∧
    ((authorize_action rm policies has_permission approval_queue new_approval_id now
      user_id action resource_type resource_id context).events.map
        (fun e => e.policy_violations)) = [[]] ∧
    (authorize_action rm policies has_permission approval_queue new_approval_id now
      user_id action resource_type resource_id context).enforce_policy_called = false ∧
    (authorize_action rm policies has_permission approval_queue new_approval_id now
      user_id action resource_type resource_id context).approval_queue =
      approval_queue := by
  simp [authorize_action, hmap, hperm]

theorem authorize_action_permission_denied_witness :
    (authorize_action rmFalse [] (fun _ p => viewer_permissions.contains p) []
      "apX" "now" "u1" "write" (Option.some "lead") Option.none []).result.reason =
      Option.some "insufficient_permissions" ∧
    (authorize_action rmFalse [] (fun _ p => viewer_permissions.contains p) []
      "apX" "now" "u1" "write" (Option.some "lead") Option.none
      []).enforce_policy_called = false ∧
    ((authorize_action rmFalse [] (fun _ p => viewer_permissions.contains p) []
      "apX" "now" "u1" "write" (Option.some "lead") Option.none []).events.map
        (fun e => e.policy_violations)) = [[]] :=
  ⟨(authorize_action_permission_denied_terminal rmFalse []
      (fun _ p => viewer_permissions.contains p) [] "apX" "now" "u1" "write"
      (Option.some "lead") Option.none [] Permission.write_leads rfl rfl).2.1,
   (authorize_action_permission_denied_terminal rmFalse []
      (fun _ p => viewer_permissions.contains p) [] "apX" "now" "u1" "write"
      (Option.some "lead") Option.none [] Permission.write_leads rfl rfl).2.2.2.2.1,
   (authorize_action_permission_denied_terminal rmFalse []
      (fun _ p => viewer_permissions.contains p) [] "apX" "now" "u1" "write"
      (Option.some "lead") Option.none [] Permission.write_leads rfl rfl).2.2.2.1⟩


/-- A stored DATA_ACCESS rule with priority 200 (larger than the default
rules' priority 100). -/
def storedRuleC2 : PolicyRule :=
  ⟨"r200", "Stored Low Priority", "", PolicyType.data_access, [],
   PolicyAction.log_only, 200, true⟩

/-- A policy store holding just `storedRuleC2`. -/
def storedC2 : List StoredPolicy := [⟨PolicyType.data_access, [storedRuleC2]⟩]

/-- A context matched by both `storedRuleC2` (condition-free) and the seeded
default `data_access_own_leads` rule. -/
def contextC2 : List (String × PyVal) :=
  [("resource_type", PyVal.str "lead"), ("action", PyVal.str "read")]

/-- C2 counterexample: after `__init__` the DATA_ACCESS rule list holds the
stored priority-200 rule first and the seeded default priority-100 rule
second — seeding appends after the sort — and `evaluate_policies` visits them
in exactly that non-ascending order, as the violations order shows. -/
theorem policy_order_defaults_appended_counterexample :
    ((policiesGet (engine_policies storedC2) PolicyType.data_access).getD []).map
      PolicyRule.priority = [200, 100] ∧
    ((policiesGet (engine_policies storedC2) PolicyType.data_access).getD []).map
      PolicyRule.rule_id = ["r200", "data_access_own_leads"] ∧
    ¬ ((200 : Int) ≤ 100) ∧
    ((evaluate_policies rmFalse (engine_policies storedC2) PolicyType.data_access
        contextC2).violations.map Violation.rule_id) =
      ["r200", "data_access_own_leads"] := by
  refine ⟨rfl, rfl, ?_, rfl⟩
  decide

instance isTotalPriorityLe : IsTotal PolicyRule (fun a b => a.priority ≤ b.priority) :=
  ⟨fun a b => Int.le_total a.priority b.priority⟩

instance isTransPriorityLe : IsTrans PolicyRule (fun a b => a.priority ≤ b.priority) :=
  ⟨fun _ _ _ hab hbc => le_trans hab hbc⟩

theorem findPolicies_map_key_preserving
    (g : PolicyType × List PolicyRule → PolicyType × List PolicyRule)
    (hg : ∀ e, (g e).1 = e.1) (l : List (PolicyType × List PolicyRule)) (pt : PolicyType) :
    List.find? (fun e => e.1 == pt) (l.map g) =
      Option.map g (List.find? (fun e => e.1 == pt) l) := by
  induction l with
  | nil => rfl
  | cons e rest ih =>
      by_cases hk : (e.1 == pt) = true
      · simp [List.find?_cons, hg e, hk]
      · simp [List.find?_cons, hg e, hk, ih]

/-- `policiesGet` after the per-type sort of `_load_policies`. -/
theorem policiesGet_map_sort (l : List (PolicyType × List PolicyRule)) (pt : PolicyType) :
    policiesGet (l.map (fun e => (e.1, sortByPriority e.2))) pt =
      Option.map sortByPriority (policiesGet l pt) := by
  unfold policiesGet
  rw [findPolicies_map_key_preserving (fun e => (e.1, sortByPriority e.2))
    (fun _ => rfl) l pt]
  cases List.find? (fun e => e.1 == pt) l <;> rfl

/-- `policiesGet` through one `policiesAdd` on a different type. -/
theorem policiesGet_policiesAdd_ne (acc : List (PolicyType × List PolicyRule))
    (pt pt2 : PolicyType) (rs : List PolicyRule) (h : (pt2 == pt) = false) :
    policiesGet (policiesAdd acc pt2 rs) pt = policiesGet acc pt := by
  unfold policiesAdd
  by_cases hany : acc.any (fun e => e.1 == pt2) = true
  · rw [if_pos hany]
    unfold policiesGet
    rw [findPolicies_map_key_preserving (fun e => if e.1 == pt2 then (e.1, e.2 ++ rs) else e)
      (fun e => by by_cases he : (e.1 == pt2) = true <;> simp [he]) acc pt]
    cases hfe : List.find? (fun e => e.1 == pt) acc with
    | none => rfl
    | some e =>
        have hkey : (e.1 == pt) = true := by simpa using List.find?_some hfe
        have hne : (e.1 == pt2) = false := by
          have heq : e.1 = pt := by simpa using hkey
          subst heq
          simpa [BEq.comm] using h
        have hne2 : ¬ e.1 = pt2 := by simpa using hne
        simp [hne2]
  · rw [if_neg hany]
    unfold policiesGet
    rw [List.find?_append]
    cases hfe : List.find? (fun e => e.1 == pt) acc with
    | none => simp [List.find?_cons, h]
    | some e => rfl

/-- `policiesGet` through one `policiesAdd` on the same type: the added rules
are appended after whatever was registered. -/
theorem policiesGet_policiesAdd_eq (acc : List (PolicyType × List PolicyRule))
    (pt : PolicyType) (rs : List PolicyRule) :
    policiesGet (policiesAdd acc pt rs) pt =
      Option.some ((policiesGet acc pt).getD [] ++ rs) := by
  unfold policiesAdd
  by_cases hany : acc.any (fun e => e.1 == pt) = true
  · rw [if_pos hany]
    unfold policiesGet
    rw [findPolicies_map_key_preserving (fun e => if e.1 == pt then (e.1, e.2 ++ rs) else e)
      (fun e => by by_cases he : (e.1 == pt) = true <;> simp [he]) acc pt]
    cases hfe : List.find? (fun e => e.1 == pt) acc with
    | none =>
        exfalso
        obtain ⟨e, he, hkey⟩ := List.any_eq_true.mp hany
        exact (List.find?_eq_none.mp hfe e he) hkey
    | some e =>
        have hkey : (e.1 == pt) = true := by simpa using List.find?_some hfe
        have hkey2 : e.1 = pt := by simpa using hkey
        simp [hkey2]
  · rw [if_neg hany]
    have hfe : List.find? (fun e => e.1 == pt) acc = Option.none := by
      cases hfe2 : List.find? (fun e => e.1 == pt) acc with
      | none => rfl
      | some e =>
          exfalso
          have hkey : (e.1 == pt) = true := by simpa using List.find?_some hfe2
          have hmem : e ∈ acc := List.mem_of_find?_eq_some hfe2
          exact hany (List.any_eq_true.mpr ⟨e, hmem, hkey⟩)
    unfold policiesGet
    rw [List.find?_append, hfe]
    simp [List.find?_cons]

/-- The seeding fold of `_initialize_default_policies` only ever appends rules
drawn from the seeded list after the rules already registered for a type. -/
theorem policiesGet_seed_fold (ds : List PolicyRule) :
    ∀ (acc : List (PolicyType × List PolicyRule)) (pt : PolicyType)
      (rules : List PolicyRule),
    policiesGet acc pt = Option.some rules →
    ∃ extra,
      policiesGet
        (ds.foldl (fun acc2 pr =>
          if ruleIdExists acc2 pr.rule_id then acc2
          else policiesAdd acc2 pr.policy_type [pr]) acc) pt =
        Option.some (rules ++ extra) ∧ ∀ r ∈ extra, r ∈ ds := by
  induction ds with
  | nil =>
      intro acc pt rules h
      exact ⟨[], by simpa using h, by simp⟩
  | cons d ds ih =>
      intro acc pt rules h
      simp only [List.foldl_cons]
      by_cases hex : ruleIdExists acc d.rule_id = true
      · simp only [hex, if_true]
        obtain ⟨extra, hget, hsub⟩ := ih acc pt rules h
        exact ⟨extra, hget, fun r hr => List.mem_cons_of_mem d (hsub r hr)⟩
      · simp only [Bool.not_eq_true] at hex
        simp only [hex, Bool.false_eq_true, if_false]
        by_cases hpt : (d.policy_type == pt) = true
        · have heq : d.policy_type = pt := by simpa using hpt
          have hget2 : policiesGet (policiesAdd acc d.policy_type [d]) pt =
              Option.some (rules ++ [d]) := by
            rw [heq, policiesGet_policiesAdd_eq, h]
            rfl
          obtain ⟨extra, hget, hsub⟩ := ih _ pt (rules ++ [d]) hget2
          refine ⟨d :: extra, ?_, ?_⟩
          · simpa [List.append_assoc] using hget
          · intro r hr
            rcases List.mem_cons.mp hr with hr | hr
            · exact hr ▸ List.mem_cons_self d ds
            · exact List.mem_cons_of_mem d (hsub r hr)
        · have hne : (d.policy_type == pt) = false := by
            simpa using hpt
          have hget2 : policiesGet (policiesAdd acc d.policy_type [d]) pt =
              Option.some rules := by
            rw [policiesGet_policiesAdd_ne acc pt d.policy_type [d] hne, h]
          obtain ⟨extra, hget, hsub⟩ := ih _ pt rules hget2
          exact ⟨extra, hget, fun r hr => List.mem_cons_of_mem d (hsub r hr)⟩

/-- The first matched DENY rule returns immediately: the result carries DENY,
the violations stop at that rule, and the rules after it contribute nothing. -/
theorem evaluate_rules_deny_short_circuit (rm : PyVal → String → Bool)
    (context : List (String × PyVal)) :
    ∀ (pre : List PolicyRule) (d : PolicyRule) (post : List PolicyRule)
      (violations : List Violation) (final : PolicyAction),
    d.matches rm context = true → d.action = PolicyAction.deny →
    (∀ r ∈ pre, r.matches rm context = true → r.action ≠ PolicyAction.deny) →
    evaluate_rules rm context (pre ++ d :: post) violations final =
      ⟨PolicyAction.deny,
       violations ++ (pre.filter (fun r => r.matches rm context)).map violationOf ++
         [violationOf d]⟩ := by
  intro pre
  induction pre with
  | nil =>
      intro d post violations final hm hd _
      simp [evaluate_rules, hm, hd]
  | cons r rest ih =>
      intro d post violations final hm hd hpre
      have hrec := ih d post
      have hrest : ∀ x ∈ rest, x.matches rm context = true → x.action ≠ PolicyAction.deny :=
        fun x hx => hpre x (List.mem_cons_of_mem r hx)
      by_cases hrm : r.matches rm context = true
      · have hrnd : r.action ≠ PolicyAction.deny := hpre r (List.mem_cons_self r rest) hrm
        simp [evaluate_rules, hrm, hrnd, List.filter_cons,
          hrec _ _ hm hd hrest]
      · simp [evaluate_rules, hrm, List.filter_cons, hrec _ _ hm hd hrest]

/-- C2 (amended): within one policy type, the rules loaded from storage are
sorted ascending by priority at load time, and the default rules seeded
afterwards are appended at the end of the type's list regardless of their
priority — so evaluation visits the stored rules in ascending priority order
followed by the seeded defaults; evaluation stops at the first matched DENY
rule: no rule after it is evaluated and the returned action is DENY. -/
theorem policy_order_and_deny_short_circuit :
    (∀ (stored : List StoredPolicy) (pt : PolicyType) (rules : List PolicyRule),
       policiesGet (_load_policies stored) pt = Option.some rules →
       List.Sorted (fun a b : PolicyRule => a.priority ≤ b.priority) rules) ∧
    (∀ (policies : List (PolicyType × List PolicyRule)) (pt : PolicyType)
       (rules : List PolicyRule),
       policiesGet policies pt = Option.some rules →
       ∃ extra, policiesGet (_initialize_default_policies policies) pt =
           Option.some (rules ++ extra) ∧ ∀ r ∈ extra, r ∈ default_policies) ∧
    (∀ (rm : PyVal → String → Bool) (context : List (String × PyVal))
       (policies : List (PolicyType × List PolicyRule)) (pt : PolicyType)
       (pre : List PolicyRule) (d : PolicyRule) (post : List PolicyRule),
       policiesGet policies pt = Option.some (pre ++ d :: post) →
       d.matches rm context = true → d.action = PolicyAction.deny →
       (∀ r ∈ pre, r.matches rm context = true → r.action ≠ PolicyAction.deny) →
       evaluate_policies rm policies pt context =
         ⟨PolicyAction.deny,
          (pre.filter (fun r => r.matches rm context)).map violationOf ++
            [violationOf d]⟩) := by
  refine ⟨?_, ?_, ?_⟩
  · intro stored pt rules h
    unfold _load_policies at h
    rw [policiesGet_map_sort] at h
    cases hg : policiesGet
        (stored.foldl (fun acc sp => policiesAdd acc sp.policy_type sp.rules) []) pt with
    | none => rw [hg] at h; simp at h
    | some l =>
        rw [hg] at h
        have h3 : sortByPriority l = rules := Option.some.inj h
        rw [← h3]
        exact List.sorted_insertionSort (fun a b : PolicyRule => a.priority ≤ b.priority) l
  · intro policies pt rules h
    unfold _initialize_default_policies
    exact policiesGet_seed_fold default_policies policies pt rules h
  · intro rm context policies pt pre d post h hm hd hpre
    unfold evaluate_policies
    rw [h]
    have h2 := evaluate_rules_deny_short_circuit rm context pre d post []
      PolicyAction.allow hm hd hpre
    rw [List.nil_append] at h2
    exact h2

/-- A condition-free DENY rule used to witness the short-circuit. -/
def denyRuleC2W : PolicyRule :=
  ⟨"r_deny_w", "Deny Witness", "", PolicyType.communication, [],
   PolicyAction.deny, 50, true⟩

theorem policy_order_and_deny_short_circuit_witness :
    List.Sorted (fun a b : PolicyRule => a.priority ≤ b.priority) [storedRuleC2] ∧
    evaluate_policies rmFalse [(PolicyType.communication, [denyRuleC2W])]
      PolicyType.communication [] = ⟨PolicyAction.deny, [violationOf denyRuleC2W]⟩ :=
  ⟨policy_order_and_deny_short_circuit.1 storedC2 PolicyType.data_access [storedRuleC2] rfl,
   policy_order_and_deny_short_circuit.2.2 rmFalse [] [(PolicyType.communication, [denyRuleC2W])]
     PolicyType.communication [] denyRuleC2W [] rfl rfl rfl
     (fun r hr => absurd hr (List.not_mem_nil r))⟩


/-- Ids of the successfully executed steps of a trace, in execution order —
what `completed_steps` accumulates. -/
def completedOfTrace (execOk : String → Bool) (tr : List WorkflowStep) : List String :=
  (tr.filter (fun s => execOk s.id)).map (fun s => s.id)

/-- Ids of the failed steps of a trace, in execution order. -/
def failedOfTrace (execOk : String → Bool) (tr : List WorkflowStep) : List String :=
  (tr.filter (fun s => ! execOk s.id)).map (fun s => s.id)

/-- Every executed step had all of its dependencies among the ids recorded as
completed at the moment it started, `done` seeding the completed ids. -/
def depsHonoredFrom (execOk : String → Bool) (done : List String) :
    List WorkflowStep → Prop
  | [] => True
  | s :: rest =>
      (∀ d ∈ s.dependencies, d ∈ done) ∧
      depsHonoredFrom execOk (if execOk s.id then done ++ [s.id] else done) rest

theorem completedOfTrace_append (execOk : String → Bool) (t1 t2 : List WorkflowStep) :
    completedOfTrace execOk (t1 ++ t2) =
      completedOfTrace execOk t1 ++ completedOfTrace execOk t2 := by
  simp [completedOfTrace, List.filter_append]

theorem failedOfTrace_append (execOk : String → Bool) (t1 t2 : List WorkflowStep) :
    failedOfTrace execOk (t1 ++ t2) =
      failedOfTrace execOk t1 ++ failedOfTrace execOk t2 := by
  simp [failedOfTrace, List.filter_append]

theorem execOk_of_mem_completedOfTrace (execOk : String → Bool) (tr : List WorkflowStep)
    (x : String) (h : x ∈ completedOfTrace execOk tr) : execOk x = true := by
  unfold completedOfTrace at h
  obtain ⟨s, hs, heq⟩ := List.mem_map.mp h
  subst heq
  exact (List.mem_filter.mp hs).2

theorem execOk_of_mem_failedOfTrace (execOk : String → Bool) (tr : List WorkflowStep)
    (x : String) (h : x ∈ failedOfTrace execOk tr) : execOk x = false := by
  unfold failedOfTrace at h
  obtain ⟨s, hs, heq⟩ := List.mem_map.mp h
  subst heq
  have := (List.mem_filter.mp hs).2
  simpa using this

theorem depsHonoredFrom_append (execOk : String → Bool) :
    ∀ (t1 : List WorkflowStep) (done : List String) (t2 : List WorkflowStep),
    depsHonoredFrom execOk done (t1 ++ t2) ↔
      (depsHonoredFrom execOk done t1 ∧
       depsHonoredFrom execOk (done ++ completedOfTrace execOk t1) t2) := by
  intro t1
  induction t1 with
  | nil =>
      intro done t2
      simp [depsHonoredFrom, completedOfTrace]
  | cons s rest ih =>
      intro done t2
      by_cases hok : execOk s.id = true
      · have hco : completedOfTrace execOk (s :: rest) =
            s.id :: completedOfTrace execOk rest := by
          simp [completedOfTrace, List.filter_cons, hok]
        simp only [List.cons_append, depsHonoredFrom, if_pos hok, List.append_eq]
        rw [ih (done ++ [s.id]) t2, hco, List.append_assoc, List.singleton_append]
        exact and_assoc.symm
      · have hok2 : execOk s.id = false := by simpa using hok
        have hco : completedOfTrace execOk (s :: rest) =
            completedOfTrace execOk rest := by
          simp [completedOfTrace, List.filter_cons, hok2]
        simp only [List.cons_append, depsHonoredFrom, if_neg hok, List.append_eq]
        rw [ih done t2, hco]
        exact and_assoc.symm

theorem depsHonoredFrom_mem_completed (execOk : String → Bool) :
    ∀ (tr : List WorkflowStep) (done : List String),
    depsHonoredFrom execOk done tr →
    ∀ s ∈ tr, ∀ d ∈ s.dependencies, d ∈ done ++ completedOfTrace execOk tr := by
  intro tr
  induction tr with
  | nil => intro done _ s hs; exact absurd hs (List.not_mem_nil s)
  | cons t rest ih =>
      intro done h s hs d hd
      obtain ⟨hhead, htail⟩ := h
      rcases List.mem_cons.mp hs with hs | hs
      · subst hs
        exact List.mem_append_left _ (hhead d hd)
      · by_cases hok : execOk t.id = true
        · have hco : completedOfTrace execOk (t :: rest) =
              t.id :: completedOfTrace execOk rest := by
            simp [completedOfTrace, List.filter_cons, hok]
          rw [if_pos hok] at htail
          have hrec := ih _ htail s hs d hd
          rw [hco, ← List.singleton_append, ← List.append_assoc]
          exact hrec
        · have hok2 : execOk t.id = false := by simpa using hok
          have hco : completedOfTrace execOk (t :: rest) =
              completedOfTrace execOk rest := by
            simp [completedOfTrace, List.filter_cons, hok2]
          rw [if_neg hok] at htail
          have hrec := ih _ htail s hs d hd
          rw [hco]
          exact hrec


theorem removeStep_map_id (sid : String) :
    ∀ (l : List WorkflowStep),
    (removeStep l sid).map (fun s => s.id) = (l.map (fun s => s.id)).erase sid := by
  intro l
  induction l with
  | nil => rfl
  | cons t rest ih =>
      by_cases h : (t.id == sid) = true
      · have h2 : t.id = sid := by simpa using h
        simp [removeStep, List.eraseP_cons, h, List.erase_cons, h2]
      · have hb : (t.id == sid) = false := by simpa using h
        have hstep : removeStep (t :: rest) sid = t :: removeStep rest sid := by
          simp [removeStep, List.eraseP_cons, hb]
        rw [hstep]
        simp only [List.map_cons, List.erase_cons, hb, Bool.false_eq_true, if_false]
        rw [ih]

theorem mem_removeStep (sid : String) :
    ∀ (l : List WorkflowStep) (s : WorkflowStep),
    s ∈ l → s.id ≠ sid → s ∈ removeStep l sid := by
  intro l
  induction l with
  | nil => intro s hs; exact absurd hs (List.not_mem_nil s)
  | cons t rest ih =>
      intro s hs hne
      by_cases h : (t.id == sid) = true
      · have hts : s ≠ t := by
          intro heq
          subst heq
          exact hne (by simpa using h)
        have hs2 : s ∈ rest := by
          rcases List.mem_cons.mp hs with hs | hs
          · exact absurd hs hts
          · exact hs
        simpa [removeStep, List.eraseP_cons, h] using hs2
      · rcases List.mem_cons.mp hs with hs | hs
        · subst hs
          simp [removeStep, List.eraseP_cons, h]
        · have hrec := ih s hs hne
          simp only [removeStep, List.eraseP_cons, h, Bool.false_eq_true, if_false]
          exact List.mem_cons_of_mem t hrec

/-- The loop invariant of `_execute_workflow`: the execution's two id sets are
exactly the successful and failed projections of the trace, every executed
step saw its dependencies completed, and no step id is duplicated between the
trace and the remaining dict. -/
def ExecInv (execOk : String → Bool) (st : ExecState) (remaining : List WorkflowStep) :
    Prop :=
  st.completed_steps = completedOfTrace execOk st.trace ∧
  st.failed_steps = failedOfTrace execOk st.trace ∧
  depsHonoredFrom execOk [] st.trace ∧
  (st.trace.map (fun s => s.id) ++ remaining.map (fun s => s.id)).Nodup


/-- Executing one ready step preserves the loop invariant. -/
theorem ExecInv_step (execOk : String → Bool) (st : ExecState)
    (remaining : List WorkflowStep) (s : WorkflowStep)
    (hInv : ExecInv execOk st remaining)
    (hdeps : ∀ d ∈ s.dependencies, d ∈ st.completed_steps)
    (hmem : s ∈ remaining) :
    ExecInv execOk
      (if execOk s.id then
        { st with completed_steps := st.completed_steps ++ [s.id],
                  trace := st.trace ++ [s] }
      else
        { st with failed_steps := st.failed_steps ++ [s.id],
                  trace := st.trace ++ [s] })
      (removeStep remaining s.id) := by
  obtain ⟨h1, h2, h3, h4⟩ := hInv
  have hdeps2 : ∀ d ∈ s.dependencies, d ∈ [] ++ completedOfTrace execOk st.trace := by
    intro d hd
    rw [List.nil_append, ← h1]
    exact hdeps d hd
  have hd3 : depsHonoredFrom execOk [] (st.trace ++ [s]) := by
    rw [depsHonoredFrom_append]
    exact ⟨h3, hdeps2, trivial⟩
  have hnod : (((st.trace ++ [s]).map (fun u => u.id)) ++
      (removeStep remaining s.id).map (fun u => u.id)).Nodup := by
    have hsid : s.id ∈ remaining.map (fun u => u.id) :=
      List.mem_map_of_mem (fun u => u.id) hmem
    have hperm : List.Perm (remaining.map (fun u => u.id))
        (s.id :: (remaining.map (fun u => u.id)).erase s.id) :=
      List.perm_cons_erase hsid
    have hperm2 : List.Perm
        (st.trace.map (fun u => u.id) ++ remaining.map (fun u => u.id))
        ((st.trace ++ [s]).map (fun u => u.id) ++
          (removeStep remaining s.id).map (fun u => u.id)) := by
      rw [removeStep_map_id, List.map_append]
      have hstep : (st.trace.map (fun u => u.id) ++ List.map (fun u => u.id) [s]) ++
          (remaining.map (fun u => u.id)).erase s.id =
          st.trace.map (fun u => u.id) ++
            (s.id :: (remaining.map (fun u => u.id)).erase s.id) := by
        rw [List.append_assoc]
        rfl
      rw [hstep]
      exact List.Perm.append_left _ hperm
    exact hperm2.nodup h4
  by_cases hok : execOk s.id = true
  · rw [if_pos hok]
    refine ⟨?_, ?_, hd3, hnod⟩
    · show st.completed_steps ++ [s.id] = completedOfTrace execOk (st.trace ++ [s])
      rw [completedOfTrace_append, h1]
      simp [completedOfTrace, List.filter_cons, hok]
    · show st.failed_steps = failedOfTrace execOk (st.trace ++ [s])
      rw [failedOfTrace_append, h2]
      simp [failedOfTrace, List.filter_cons, hok]
  · have hok2 : execOk s.id = false := by simpa using hok
    rw [if_neg hok]
    refine ⟨?_, ?_, hd3, hnod⟩
    · show st.completed_steps = completedOfTrace execOk (st.trace ++ [s])
      rw [completedOfTrace_append, h1]
      simp [completedOfTrace, List.filter_cons, hok2]
    · show st.failed_steps ++ [s.id] = failedOfTrace execOk (st.trace ++ [s])
      rw [failedOfTrace_append, h2]
      simp [failedOfTrace, List.filter_cons, hok2]


/-- Executing a batch of ready steps preserves the loop invariant, provided
every batch step was drawn from `remaining`, the batch ids are distinct, and
every batch step's dependencies lie in `c0`, a set of ids already completed
when the batch was selected. -/
theorem execBatch_inv (execOk : String → Bool) (c0 : List String) :
    ∀ (batch : List WorkflowStep) (st : ExecState) (remaining : List WorkflowStep),
    ExecInv execOk st remaining →
    (∀ x ∈ c0, x ∈ st.completed_steps) →
    (∀ s ∈ batch, ∀ d ∈ s.dependencies, d ∈ c0) →
    (∀ s ∈ batch, s ∈ remaining) →
    (batch.map (fun s => s.id)).Nodup →
    ExecInv execOk (execBatch execOk batch st remaining).1
      (execBatch execOk batch st remaining).2 := by
  intro batch
  induction batch with
  | nil => intro st remaining hInv _ _ _ _; exact hInv
  | cons s rest ih =>
      intro st remaining hInv hc0 hdeps hmem hnd
      have hsmem : s ∈ remaining := hmem s (List.mem_cons_self s rest)
      have hsdeps : ∀ d ∈ s.dependencies, d ∈ st.completed_steps := fun d hd =>
        hc0 d (hdeps s (List.mem_cons_self s rest) d hd)
      have hInv2 := ExecInv_step execOk st remaining s hInv hsdeps hsmem
      have hndc : (∀ x ∈ rest, ¬ x.id = s.id) ∧ (rest.map (fun v => v.id)).Nodup := by
        simpa using hnd
      simp only [execBatch]
      apply ih _ _ hInv2
      · intro x hx
        have hxc := hc0 x hx
        by_cases hok : execOk s.id = true
        · rw [if_pos hok]
          exact List.mem_append_left _ hxc
        · rw [if_neg hok]
          exact hxc
      · intro u hu d hd
        exact hdeps u (List.mem_cons_of_mem s hu) d hd
      · intro u hu
        exact mem_removeStep s.id remaining u (hmem u (List.mem_cons_of_mem s hu))
          (hndc.1 u hu)
      · exact hndc.2


theorem stepReady_deps (s : WorkflowStep) (completed : List String)
    (h : stepReady s completed = true) : ∀ d ∈ s.dependencies, d ∈ completed := by
  intro d hd
  unfold stepReady at h
  have h1 : (s.dependencies.all fun dep => completed.contains dep) = true := by
    cases hand : s.dependencies.all fun dep => completed.contains dep with
    | true => rfl
    | false => rw [hand] at h; simp at h
  have h2 := List.all_eq_true.mp h1 d hd
  exact List.mem_of_elem_eq_true h2

/-- The whole `while` loop preserves the invariant (`n` bounds the number of
iterations by the size of `remaining`). -/
theorem execLoop_inv (execOk : String → Bool) :
    ∀ (n : Nat) (st : ExecState) (remaining : List WorkflowStep),
    remaining.length ≤ n → ExecInv execOk st remaining →
    ExecInv execOk (execLoop execOk st remaining).1 (execLoop execOk st remaining).2 := by
  intro n
  induction n with
  | zero =>
      intro st remaining hlen hInv
      have hempty : remaining = [] := List.eq_nil_of_length_eq_zero (Nat.le_zero.mp hlen)
      subst hempty
      rw [execLoop]
      exact hInv
  | succ n ih =>
      intro st remaining hlen hInv
      rw [execLoop]
      by_cases hemp : remaining.isEmpty = true
      · rw [if_pos hemp]
        exact hInv
      · rw [if_neg hemp]
        by_cases hready :
            (remaining.filter (fun s => stepReady s st.completed_steps)).isEmpty = true
        · rw [dif_pos hready]
          exact hInv
        · rw [dif_neg hready]
          have hnd4 := hInv.2.2.2
          have hRnodup : (remaining.map (fun s => s.id)).Nodup :=
            List.Nodup.of_append_right hnd4
          have hfnodup :
              ((remaining.filter (fun s => stepReady s st.completed_steps)).map
                (fun s => s.id)).Nodup :=
            List.Nodup.sublist ((List.filter_sublist remaining).map (fun s => s.id)) hRnodup
          have hbInv := execBatch_inv execOk st.completed_steps
            (remaining.filter (fun s => stepReady s st.completed_steps)) st remaining hInv
            (fun _ hx => hx)
            (fun s hs => stepReady_deps s st.completed_steps (List.mem_filter.mp hs).2)
            (fun s hs => List.mem_of_mem_filter hs)
            hfnodup
          have hne2 : remaining.filter (fun s => stepReady s st.completed_steps) ≠ [] := by
            intro h0
            rw [h0] at hready
            exact hready rfl
          obtain ⟨b, rest, hr⟩ := List.exists_cons_of_ne_nil hne2
          have hb : b ∈ remaining := by
            have hbf : b ∈ remaining.filter (fun s => stepReady s st.completed_steps) := by
              rw [hr]
              exact List.mem_cons_self b rest
            exact List.mem_of_mem_filter hbf
          have hlt : (execBatch execOk
              (remaining.filter (fun s => stepReady s st.completed_steps)) st
              remaining).2.length < remaining.length := by
            rw [hr]
            exact length_execBatch_lt execOk b rest st remaining hb
          have hlen2 : (execBatch execOk
              (remaining.filter (fun s => stepReady s st.completed_steps)) st
              remaining).2.length ≤ n := by
            omega
          exact ih _ _ hlen2 hbInv


theorem remainingInsert_map_id_nodup (l : List WorkflowStep) (s : WorkflowStep)
    (h : (l.map (fun u => u.id)).Nodup) :
    ((remainingInsert l s).map (fun u => u.id)).Nodup := by
  unfold remainingInsert
  by_cases hany : l.any (fun t => t.id == s.id) = true
  · rw [if_pos hany]
    have hmap : (l.map (fun t => if t.id == s.id then s else t)).map (fun u => u.id) =
        l.map (fun u => u.id) := by
      rw [List.map_map]
      apply List.map_congr_left
      intro t _
      by_cases ht : (t.id == s.id) = true
      · have ht2 : t.id = s.id := by simpa using ht
        simp [Function.comp, ht, ht2]
      · simp [Function.comp, ht]
    rw [hmap]
    exact h
  · rw [if_neg hany]
    rw [List.map_append]
    have hall : ∀ t ∈ l, ¬ t.id = s.id := by simpa using hany
    apply List.Nodup.append h (List.nodup_singleton s.id)
    intro x hx hy
    have hxs : x = s.id := by simpa using hy
    subst hxs
    obtain ⟨t, ht, hts⟩ := List.mem_map.mp hx
    exact hall t ht hts

theorem buildRemaining_nodup (steps : List WorkflowStep) :
    ((buildRemaining steps).map (fun u => u.id)).Nodup := by
  unfold buildRemaining
  suffices h : ∀ (acc : List WorkflowStep), (acc.map (fun u => u.id)).Nodup →
      ((steps.foldl remainingInsert acc).map (fun u => u.id)).Nodup by
    exact h [] (by simp)
  induction steps with
  | nil => intro acc h; simpa using h
  | cons s rest ih =>
      intro acc h
      simp only [List.foldl_cons]
      exact ih _ (remainingInsert_map_id_nodup acc s h)

/-- The structural facts of the loop invariant, read off a finished run. -/
theorem execute_workflow_inv (execOk : String → Bool) (steps : List WorkflowStep) :
    (_execute_workflow execOk steps).completed_steps =
      completedOfTrace execOk (_execute_workflow execOk steps).trace ∧
    (_execute_workflow execOk steps).failed_steps =
      failedOfTrace execOk (_execute_workflow execOk steps).trace ∧
    depsHonoredFrom execOk [] (_execute_workflow execOk steps).trace ∧
    ((_execute_workflow execOk steps).trace.map (fun u => u.id) ++
      (_execute_workflow execOk steps).remaining.map (fun u => u.id)).Nodup := by
  have hInit : ExecInv execOk ⟨[], [], []⟩ (buildRemaining steps) := by
    refine ⟨rfl, rfl, ?_, ?_⟩
    · exact True.intro
    · simpa using buildRemaining_nodup steps
  exact execLoop_inv execOk (buildRemaining steps).length ⟨[], [], []⟩
    (buildRemaining steps) (le_refl _) hInit

/-- The final status of a run is derived from the failed set and the leftover
remaining dict exactly as `_execute_workflow` writes it. -/
theorem execute_workflow_status (execOk : String → Bool) (steps : List WorkflowStep) :
    (_execute_workflow execOk steps).status =
      (if (_execute_workflow execOk steps).failed_steps.isEmpty = false then
        WorkflowStatus.failed
       else if (_execute_workflow execOk steps).remaining.isEmpty then
        WorkflowStatus.completed
       else WorkflowStatus.paused) := rfl

/-- C7: a step executes only after every one of its dependencies was recorded
as completed — `depsHonoredFrom` states that each step of the trace saw all
its dependencies among the previously completed ids — and in particular every
dependency of an executed step ends in `completed_steps` (it executed earlier
and succeeded). -/
theorem step_dependencies_completed_before_execution (execOk : String → Bool)
    (steps : List WorkflowStep) :
    depsHonoredFrom execOk [] (_execute_workflow execOk steps).trace ∧
    ∀ s ∈ (_execute_workflow execOk steps).trace, ∀ d ∈ s.dependencies,
      d ∈ (_execute_workflow execOk steps).completed_steps ∧ execOk d = true := by
  obtain ⟨h1, _, h3, _⟩ := execute_workflow_inv execOk steps
  refine ⟨h3, ?_⟩
  intro s hs d hd
  have hmem := depsHonoredFrom_mem_completed execOk _ [] h3 s hs d hd
  rw [List.nil_append] at hmem
  rw [h1]
  exact ⟨hmem, execOk_of_mem_completedOfTrace execOk _ d hmem⟩

/-- A two-step chain, B depending on A, everything succeeding. -/
def stepsC7W : List WorkflowStep := [⟨"A", [], []⟩, ⟨"B", ["A"], []⟩]

theorem step_dependencies_completed_witness :
    depsHonoredFrom (fun _ => true) [] (_execute_workflow (fun _ => true) stepsC7W).trace :=
  (step_dependencies_completed_before_execution (fun _ => true) stepsC7W).1

/-- C10: at the end of any run, `completed_steps` and `failed_steps` are
disjoint, the executed step ids are pairwise distinct (no step runs twice),
together the two sets hold exactly the executed ids, and every executed id
has left the remaining dict. -/
theorem completed_failed_disjoint_unique (execOk : String → Bool)
    (steps : List WorkflowStep) :
    (∀ x ∈ (_execute_workflow execOk steps).completed_steps,
        x ∉ (_execute_workflow execOk steps).failed_steps) ∧
    ((_execute_workflow execOk steps).trace.map (fun u => u.id)).Nodup ∧
    List.Perm
      ((_execute_workflow execOk steps).completed_steps ++
        (_execute_workflow execOk steps).failed_steps)
      ((_execute_workflow execOk steps).trace.map (fun u => u.id)) ∧
    (∀ x ∈ (_execute_workflow execOk steps).trace.map (fun u => u.id),
        x ∉ (_execute_workflow execOk steps).remaining.map (fun u => u.id)) := by
  obtain ⟨h1, h2, _, h4⟩ := execute_workflow_inv execOk steps
  refine ⟨?_, ?_, ?_, ?_⟩
  · intro x hx hy
    rw [h1] at hx
    rw [h2] at hy
    have ht := execOk_of_mem_completedOfTrace execOk _ x hx
    have hf := execOk_of_mem_failedOfTrace execOk _ x hy
    rw [ht] at hf
    exact Bool.noConfusion hf
  · exact List.Nodup.of_append_left h4
  · rw [h1, h2]
    unfold completedOfTrace failedOfTrace
    rw [← List.map_append]
    exact List.Perm.map _ (List.filter_append_perm _ _)
  · exact fun x hx => List.disjoint_of_nodup_append h4 hx

/-- Two independent steps, one failing, used to exercise the C10 facts. -/
def stepsC10W : List WorkflowStep := [⟨"X", [], []⟩, ⟨"Y", [], []⟩]

theorem completed_failed_disjoint_unique_witness :
    ((_execute_workflow (fun _ => true) stepsC10W).trace.map (fun u => u.id)).Nodup :=
  (completed_failed_disjoint_unique (fun _ => true) stepsC10W).2.1


/-- Two independent steps where A's executor raises and B's succeeds. -/
def stepsC6 : List WorkflowStep := [⟨"A", [], []⟩, ⟨"B", [], []⟩]

/-- The outcome function for `stepsC6`: only A fails. -/
def execOkC6 : String → Bool := fun sid => !(sid == "A")

/-- C6 counterexample: A fails first, yet B still starts and completes
afterwards — the trace is A then B — so a step failure does not abort the
loop; the final status is `failed` all the same. -/
theorem step_failure_does_not_abort_counterexample :
    ((_execute_workflow execOkC6 stepsC6).trace.map (fun u => u.id)) = ["A", "B"] ∧
    (_execute_workflow execOkC6 stepsC6).failed_steps = ["A"] ∧
    (_execute_workflow execOkC6 stepsC6).completed_steps = ["B"] ∧
    (_execute_workflow execOkC6 stepsC6).status = WorkflowStatus.failed := by
  refine ⟨?_, ?_, ?_, ?_⟩ <;>
    simp [_execute_workflow, execLoop, execBatch, stepReady, _check_step_conditions,
      removeStep, buildRemaining, remainingInsert, execOkC6, stepsC6, List.filter,
      List.eraseP, List.foldl]

/-- C6 (amended): a step failure does not abort the execution loop — the
remaining ready steps of the batch and later ready steps still run — but a
step whose dependencies include a failed step never becomes ready, and the
run's final status is `failed` exactly when some step failed. -/
theorem step_failure_final_status_failed (execOk : String → Bool)
    (steps : List WorkflowStep) :
    ((_execute_workflow execOk steps).failed_steps ≠ [] →
      (_execute_workflow execOk steps).status = WorkflowStatus.failed) ∧
    ((_execute_workflow execOk steps).failed_steps = [] →
      (_execute_workflow execOk steps).status ≠ WorkflowStatus.failed) ∧
    (∀ s ∈ (_execute_workflow execOk steps).trace, ∀ d ∈ s.dependencies,
      d ∉ (_execute_workflow execOk steps).failed_steps) := by
  refine ⟨?_, ?_, ?_⟩
  · intro hne
    rw [execute_workflow_status]
    have hfe : (_execute_workflow execOk steps).failed_steps.isEmpty = false := by
      cases hc : (_execute_workflow execOk steps).failed_steps with
      | nil => exact absurd hc hne
      | cons a l => rfl
    rw [if_pos hfe]
  · intro hempty
    rw [execute_workflow_status, hempty]
    rw [if_neg (by simp)]
    split
    · exact fun hcontra => WorkflowStatus.noConfusion hcontra
    · exact fun hcontra => WorkflowStatus.noConfusion hcontra
  · intro s hs d hd hdf
    obtain ⟨_, h2, h3, _⟩ := execute_workflow_inv execOk steps
    have hmem := depsHonoredFrom_mem_completed execOk _ [] h3 s hs d hd
    rw [List.nil_append] at hmem
    have htrue := execOk_of_mem_completedOfTrace execOk _ d hmem
    rw [h2] at hdf
    have hfalse := execOk_of_mem_failedOfTrace execOk _ d hdf
    rw [htrue] at hfalse
    exact Bool.noConfusion hfalse

/-- A single always-failing step. -/
def stepsC6W : List WorkflowStep := [⟨"F", [], []⟩]

theorem step_failure_final_status_failed_witness :
    (_execute_workflow (fun _ => false) stepsC6W).status = WorkflowStatus.failed :=
  (step_failure_final_status_failed (fun _ => false) stepsC6W).1
    (by
      simp [_execute_workflow, execLoop, execBatch, stepReady, _check_step_conditions,
        removeStep, buildRemaining, remainingInsert, stepsC6W, List.filter,
        List.eraseP, List.foldl])

